import Mathlib

/-!
Verification of the c3nav mesh binary struct/union codec
(`src/c3nav/mesh/baseformats.py`) against its natural-language
specification.

The Python module is shallowly embedded here:
* Python byte strings become `Bytes := List Nat` (each entry morally < 256),
* Python's dynamically typed values (ints, bools, strings, bytes, tuples,
  lists, dicts, dataclass instances, `None`) become the inductive `Py`,
* exceptions become `Except PErr`,
* `struct.pack`/`struct.unpack` for the integer format characters used by
  the module (`B H I b h i`, with a repeat count) become `packIntK` /
  `unpackIntK` over a little-endian byte order,
* the format-descriptor classes (`SimpleFormat`, `BoolFormat`,
  `FixedStrFormat`, `FixedHexFormat`, `VarArrayFormat`, `VarStrFormat`)
  become the inductive `Fmt` with `Fmt.encode` / `Fmt.decode` /
  `Fmt.minSize`,
* `StructType` and its union registry become `StructDef` / `Env` /
  `Registry`, with `structDecode`, `structTojson`, `structFromjson`,
  `structMinSize` and the declaration-time hook `initSubclass`.

Recursion through the class environment (nested struct fields, union
variant dispatch) is bounded by an explicit fuel parameter; running out of
fuel is the error `PErr.fuelOut` and corresponds to Python's unbounded
recursion on a cyclic schema.
-/
/-- Python byte strings, one `Nat` per byte. -/
abbrev Bytes := List Nat
/-- The exceptions the module can raise, by Python exception class.
`structError` is `struct.error`, `unicodeError` is `UnicodeDecodeError`,
`fuelOut` is the fuel-exhaustion artifact of the embedding. -/
inductive PErr where
  | structError
  | typeError
  | valueError
  | keyError
  | attrError
  | unicodeError
  | fuelOut
  deriving DecidableEq, Repr
/-- Dynamically typed Python values as far as the codec manipulates them:
scalars, byte strings, tuples/lists, JSON-style dicts, `None`, and
dataclass instances (`inst cls vals` is an instance of the class with id
`cls` whose `__init__`-assigned attributes are the association list
`vals`). -/
inductive Py where
  | int (n : Int)
  | bool (b : Bool)
  | str (s : String)
  | bytes (bs : Bytes)
  | tuple (xs : List Py)
  | list (xs : List Py)
  | dict (entries : List (String × Py))
  | none
  | inst (cls : Nat) (vals : List (String × Py))
  deriving Repr
/-- Association-list lookup, the model of Python `dict.get` /
`dict.__getitem__` for the string-keyed dicts the codec uses
(first matching key wins; the codec never creates duplicate keys). -/
def alookup (l : List (String × Py)) (k : String) : Option Py :=
  match l with
  | [] => Option.none
  | (k', v) :: rest => if k' = k then Option.some v else alookup rest k
/-- The integer format characters of `struct` used by the module
(`SimpleFormat.c_types`): `B H I b h i`. -/
inductive IntKind where
  | u8
  | u16
  | u32
  | i8
  | i16
  | i32
  deriving DecidableEq, Repr
/-- `struct.calcsize` of a single format character. -/
def IntKind.size : IntKind → Nat
  | .u8 => 1
  | .u16 => 2
  | .u32 => 4
  | .i8 => 1
  | .i16 => 2
  | .i32 => 4
/-- Whether the format character is signed (`b h i`). -/
def IntKind.signed : IntKind → Bool
  | .u8 => false
  | .u16 => false
  | .u32 => false
  | .i8 => true
  | .i16 => true
  | .i32 => true
/-- Little-endian bytes of `v`, exactly `w` bytes (the byte order of the
ESP32 target the packed layout is exchanged with). -/
def toLE (v : Nat) : Nat → Bytes
  | 0 => []
  | w + 1 => (v % 256) :: toLE (v / 256) w
/-- Read a little-endian byte string back into a `Nat`. -/
def fromLE : Bytes → Nat
  | [] => 0
  | b :: rest => b % 256 + 256 * fromLE rest
/-- `struct.pack` of one integer of kind `k`: range-check the value
(raising `struct.error` like CPython) and emit `k.size` little-endian
bytes; negative values are represented in two's complement. -/
def packIntK (k : IntKind) (n : Int) : Except PErr Bytes :=
  if k.signed then
    if -(2 ^ (8 * k.size - 1) : Int) ≤ n ∧ n < (2 ^ (8 * k.size - 1) : Int) then
      .ok (toLE (n % (2 ^ (8 * k.size) : Int)).toNat k.size)
    else
      .error .structError
  else
    if 0 ≤ n ∧ n < (2 ^ (8 * k.size) : Int) then
      .ok (toLE n.toNat k.size)
    else
      .error .structError
/-- `struct.unpack` of one integer of kind `k` from exactly `k.size`
bytes. -/
def unpackIntK (k : IntKind) (bs : Bytes) : Int :=
  let u : Int := (fromLE bs : Nat)
  if k.signed ∧ (2 ^ (8 * k.size - 1) : Int) ≤ u then
    u - (2 ^ (8 * k.size) : Int)
  else
    u
/-- `struct.pack` of a sequence of integers (the `*value` call for a
repeat count ≠ 1): every element must be an int (Python bools are ints). -/
def packAll (k : IntKind) : List Py → Except PErr Bytes
  | [] => .ok []
  | x :: rest =>
    match x with
    | .int n => do
      let b ← packIntK k n
      let bs ← packAll k rest
      .ok (b ++ bs)
    | .bool b => do
      let h ← packIntK k (if b then 1 else 0)
      let bs ← packAll k rest
      .ok (h ++ bs)
    | _ => .error .structError
/-- `SimpleFormat.encode` for an integer format of kind `k` with repeat
count `num`: `struct.pack(fmt, value)` when `num == 1`, otherwise
`struct.pack(fmt, *value)` (which requires a sequence of exactly `num`
elements). -/
def encodeSimple (k : IntKind) (num : Nat) (v : Py) : Except PErr Bytes :=
  if num = 1 then
    match v with
    | .int n => packIntK k n
    | .bool b => packIntK k (if b then 1 else 0)
    | _ => .error .structError
  else
    match v with
    | .tuple xs => if xs.length = num then packAll k xs else .error .structError
    | .list xs => if xs.length = num then packAll k xs else .error .structError
    | _ => .error .typeError
/-- The tuple of integers `struct.unpack` reads out of a chunk: `num`
elements of width `k.size` each. -/
def unpackChunks (k : IntKind) : Nat → Bytes → List Py
  | 0, _ => []
  | n + 1, bs => .int (unpackIntK k (bs.take k.size)) :: unpackChunks k n (bs.drop k.size)
/-- `SimpleFormat.decode`: `struct.unpack(fmt, data[:size])` fails with
`struct.error` when fewer than `size` bytes remain; a one-element result
tuple is unwrapped to the scalar. -/
def decodeSimple (k : IntKind) (num : Nat) (data : Bytes) : Except PErr (Py × Bytes) :=
  let size := k.size * num
  if data.length < size then .error .structError
  else
    match unpackChunks k num (data.take size) with
    | [v] => .ok (v, data.drop size)
    | vs => .ok (.tuple vs, data.drop size)
/-- UTF-8 bytes of one character (the encoding `str.encode()` uses). -/
def utf8Char (c : Char) : Bytes :=
  let n := c.toNat
  if n < 0x80 then [n]
  else if n < 0x800 then [0xC0 + n / 64, 0x80 + n % 64]
  else if n < 0x10000 then [0xE0 + n / 4096, 0x80 + n / 64 % 64, 0x80 + n % 64]
  else [0xF0 + n / 262144, 0x80 + n / 4096 % 64, 0x80 + n / 64 % 64, 0x80 + n % 64]
/-- `str.encode()`: UTF-8 bytes of the whole string. -/
def pyStrEncode (s : String) : Bytes :=
  (s.data.map utf8Char).flatten
/-- `bytes.decode()`: strict UTF-8 decoding, rejecting truncated
sequences, stray continuation bytes, overlong forms, surrogates and
out-of-range lead bytes, as CPython does (`None` models the raised
`UnicodeDecodeError`). -/
def utf8Decode : Bytes → Option (List Char)
  | [] => some []
  | b :: rest =>
    if b < 0x80 then
      match utf8Decode rest with
      | some cs => some (Char.ofNat b :: cs)
      | Option.none => Option.none
    else if b < 0xC2 then Option.none
    else if b < 0xE0 then
      match rest with
      | b2 :: rest2 =>
        if 0x80 ≤ b2 ∧ b2 < 0xC0 then
          match utf8Decode rest2 with
          | some cs => some (Char.ofNat ((b - 0xC0) * 64 + (b2 - 0x80)) :: cs)
          | Option.none => Option.none
        else Option.none
      | [] => Option.none
    else if b < 0xF0 then
      match rest with
      | b2 :: b3 :: rest3 =>
        if (0x80 ≤ b2 ∧ b2 < 0xC0) ∧ (0x80 ≤ b3 ∧ b3 < 0xC0)
            ∧ (b ≠ 0xE0 ∨ 0xA0 ≤ b2) ∧ (b ≠ 0xED ∨ b2 < 0xA0) then
          match utf8Decode rest3 with
          | some cs =>
            some (Char.ofNat ((b - 0xE0) * 4096 + (b2 - 0x80) * 64 + (b3 - 0x80)) :: cs)
          | Option.none => Option.none
        else Option.none
      | _ => Option.none
    else if b < 0xF5 then
      match rest with
      | b2 :: b3 :: b4 :: rest4 =>
        if (0x80 ≤ b2 ∧ b2 < 0xC0) ∧ (0x80 ≤ b3 ∧ b3 < 0xC0) ∧ (0x80 ≤ b4 ∧ b4 < 0xC0)
            ∧ (b ≠ 0xF0 ∨ 0x90 ≤ b2) ∧ (b ≠ 0xF4 ∨ b2 < 0x90) then
          match utf8Decode rest4 with
          | some cs =>
            some (Char.ofNat
              ((b - 0xF0) * 262144 + (b2 - 0x80) * 4096 + (b3 - 0x80) * 64 + (b4 - 0x80)) :: cs)
          | Option.none => Option.none
        else Option.none
      | _ => Option.none
    else Option.none
/-- `bytes.rstrip(bytes((0,)))`: drop trailing zero bytes. -/
def rstripZeros (bs : Bytes) : Bytes :=
  (bs.reverse.dropWhile (fun b => b == 0)).reverse
/-- `value.encode()[:num].ljust(num, bytes((0,)))`: truncate the UTF-8
bytes to `num` and right-pad with zero bytes to exactly `num`. -/
def ljustTrunc (num : Nat) (bs : Bytes) : Bytes :=
  bs.take num ++ List.replicate (num - (bs.take num).length) 0
/-- Value of one hexadecimal digit, as `bytes.fromhex` accepts it. -/
def hexDigitVal (c : Char) : Option Nat :=
  if '0' ≤ c ∧ c ≤ '9' then some (c.toNat - 48)
  else if 'a' ≤ c ∧ c ≤ 'f' then some (c.toNat - 87)
  else if 'A' ≤ c ∧ c ≤ 'F' then some (c.toNat - 55)
  else Option.none
/-- `bytes.fromhex` on the separator-stripped string: pairs of hex
digits.  (CPython additionally skips ASCII spaces between pairs; no value
the codec handles contains spaces, so that case is not modelled.) -/
def hexToBytes : List Char → Option Bytes
  | [] => some []
  | [_] => Option.none
  | c1 :: c2 :: rest =>
    match hexDigitVal c1, hexDigitVal c2, hexToBytes rest with
    | some h, some l, some bs => some ((16 * h + l) :: bs)
    | _, _, _ => Option.none
/-- One lowercase hex digit. -/
def hexChar (d : Nat) : Char :=
  if d < 10 then Char.ofNat (48 + d) else Char.ofNat (87 + d)
/-- `'%02x' % i` for a byte value. -/
def byteHex (n : Nat) : String :=
  String.mk [hexChar (n / 16 % 16), hexChar (n % 16)]
/-- The leaf/variable format descriptors of `baseformats.py`:
`SimpleFormat` (integer formats), `BoolFormat`, `FixedStrFormat`,
`FixedHexFormat`, `VarArrayFormat` and `VarStrFormat`. -/
inductive Fmt where
  | simple (k : IntKind) (num : Nat)
  | boolFmt
  | fixedStr (num : Nat)
  | fixedHex (num : Nat) (sep : String)
  | varArray (child : Fmt) (numK : IntKind)
  | varStr (numK : IntKind)
  deriving DecidableEq, Repr
/-- `get_min_size` of each descriptor: the fixed byte width, or for the
variable-length descriptors only the width of the length prefix. -/
def Fmt.minSize : Fmt → Nat
  | .simple k num => k.size * num
  | .boolFmt => 1
  | .fixedStr num => num
  | .fixedHex num _ => num
  | .varArray _ numK => numK.size
  | .varStr numK => numK.size
/-- The `data += self.child_type.encode(value)` loop of
`VarArrayFormat.encode`, abstracted over the child's encoder: every
element's encoding must be a byte string for `+=` to succeed. -/
def encodeLoop (enc : Py → Except PErr Py) : List Py → Except PErr Bytes
  | [] => .ok []
  | x :: rest => do
    match ← enc x with
    | .bytes b =>
      let bs ← encodeLoop enc rest
      .ok (b ++ bs)
    | _ => .error .typeError
/-- `encode` of each descriptor, faithfully including its two defects:
`FixedStrFormat.encode` ends in a comma and therefore returns a 1-tuple
containing the byte string rather than the byte string itself, and
`VarStrFormat.encode` computes `len(str)` — `len` of the builtin type —
which raises `TypeError` before looking at the value. -/
def Fmt.encode : Fmt → Py → Except PErr Py
  | .simple k num => fun v => (encodeSimple k num v).map Py.bytes
  | .boolFmt => fun v =>
    match v with
    | .bool b => (packIntK .u8 (if b then 1 else 0)).map Py.bytes
    | .int n => (packIntK .u8 n).map Py.bytes
    | _ => .error .typeError
  | .fixedStr num => fun v =>
    match v with
    | .str s => .ok (.tuple [.bytes (ljustTrunc num (pyStrEncode s))])
    | _ => .error .attrError
  | .fixedHex num _ => fun v =>
    match v with
    | .str s =>
      match hexToBytes (s.data.filter (fun c => c ≠ ':')) with
      | some bs => (encodeSimple .u8 num (.tuple (bs.map Py.int))).map Py.bytes
      | Option.none => .error .valueError
    | _ => .error .attrError
  | .varArray child numK => fun v =>
    match v with
    | .tuple xs => do
      let pre ← packIntK numK xs.length
      let body ← encodeLoop (Fmt.encode child) xs
      .ok (.bytes (pre ++ body))
    | .list xs => do
      let pre ← packIntK numK xs.length
      let body ← encodeLoop (Fmt.encode child) xs
      .ok (.bytes (pre ++ body))
    | _ => .error .typeError
  | .varStr _ => fun _ => .error .typeError
/-- The `for i in range(num)` decode loop of `VarArrayFormat.decode`,
abstracted over the child's decoder. -/
def decodeLoop (dec : Bytes → Except PErr (Py × Bytes)) : Nat → Bytes → Except PErr (List Py × Bytes)
  | 0, data => .ok ([], data)
  | m + 1, data => do
    let (x, rest) ← dec data
    let (xs, rem) ← decodeLoop dec m rest
    .ok (x :: xs, rem)
/-- `decode` of each descriptor.  `FixedStrFormat.decode` and
`FixedHexFormat.decode` slice the buffer without a size check, so a short
buffer is decoded silently; the other descriptors go through
`struct.unpack` and fail on short input. -/
def Fmt.decode : Fmt → Bytes → Except PErr (Py × Bytes)
  | .simple k num => fun data => decodeSimple k num data
  | .boolFmt => fun data => do
    let (v, rest) ← decodeSimple .u8 1 data
    match v with
    | .int n => .ok (.bool (n != 0), rest)
    | w => .ok (w, rest)
  | .fixedStr num => fun data =>
    match utf8Decode (rstripZeros (data.take num)) with
    | some cs => .ok (.str (String.mk cs), data.drop num)
    | Option.none => .error .unicodeError
  | .fixedHex num sep => fun data =>
    .ok (.str (String.intercalate sep ((data.take num).map byteHex)), data.drop num)
  | .varArray child numK => fun data => do
    let (v, rest) ← decodeSimple numK 1 data
    match v with
    | .int n => do
      let (xs, rem) ← decodeLoop (Fmt.decode child) n.toNat rest
      .ok (.list xs, rem)
    | _ => .error .typeError
  | .varStr numK => fun data => do
    let (v, rest) ← decodeSimple numK 1 data
    match v with
    | .int n =>
      match utf8Decode (rstripZeros (rest.take n.toNat)) with
      | some cs => .ok (.str (String.mk cs), rest.drop n.toNat)
      | Option.none => .error .unicodeError
    | _ => .error .typeError
/-- The legal-value range of one integer of kind `k`
(what `struct.pack` accepts without raising `struct.error`). -/
def intInRange (k : IntKind) (n : Int) : Prop :=
  if k.signed then
    -(2 ^ (8 * k.size - 1) : Int) ≤ n ∧ n < (2 ^ (8 * k.size - 1) : Int)
  else
    0 ≤ n ∧ n < (2 ^ (8 * k.size) : Int)
/-- Legal values of a `SimpleFormat` integer descriptor: a single
in-range int for repeat count 1, otherwise a tuple of exactly `num`
in-range ints (the canonical shape `decode` itself produces). -/
def simpleLegal (k : IntKind) (num : Nat) (v : Py) : Prop :=
  if num = 1 then ∃ n, v = .int n ∧ intInRange k n
  else ∃ xs, v = .tuple xs ∧ xs.length = num ∧ ∀ x ∈ xs, ∃ n, x = .int n ∧ intInRange k n
/-- The character class `[a-z]` of the `normalize_name` regex. -/
def isAsciiLower (c : Char) : Bool := 97 ≤ c.toNat && c.toNat ≤ 122
/-- The character class `[A-Z]` of the `normalize_name` regex. -/
def isAsciiUpper (c : Char) : Bool := 65 ≤ c.toNat && c.toNat ≤ 90
/-- `str.lower()` on the ASCII range (the generated identifiers are
ASCII; Python's Unicode lowering coincides with this there). -/
def asciiLower (c : Char) : Char :=
  if isAsciiUpper c then Char.ofNat (c.toNat + 32) else c
/-- `re.sub(r"([a-z])([A-Z])", r"\1_\2", name)`: the scan replaces each
non-overlapping lowercase–uppercase pair and continues after the matched
pair. -/
def subLowerUpper : List Char → List Char
  | [] => []
  | [c] => [c]
  | c1 :: c2 :: rest =>
    if isAsciiLower c1 && isAsciiUpper c2 then c1 :: '_' :: c2 :: subLowerUpper rest
    else c1 :: subLowerUpper (c2 :: rest)
/-- `normalize_name`: names already containing an underscore are just
lowercased; otherwise underscores are inserted by the regex and the
result is lowercased. -/
def normalizeName (name : String) : String :=
  if '_' ∈ name.data then String.mk (name.data.map asciiLower)
  else String.mk ((subLowerUpper name.data).map asciiLower)
/-- Modelled from the spec's words for C8: insert an underscore at every
lowercase-letter-to-uppercase-letter transition (and keep everything
else), examining each adjacent pair. -/
def specUnderscoreSplit : List Char → List Char
  | [] => []
  | [c] => [c]
  | c1 :: c2 :: rest =>
    (if isAsciiLower c1 && isAsciiUpper c2 then [c1, '_'] else [c1]) ++
      specUnderscoreSplit (c2 :: rest)
/-- What a field is bound to: a leaf format descriptor
(`metadata["format"]`) or a nested `StructType` subclass (the field's
type annotation).  The runtime `TypeError` for a field bound to neither
is a declaration-time definition error and has no representation here. -/
inductive Binding where
  | leaf (f : Fmt)
  | nested (sid : Nat)
  deriving DecidableEq, Repr
/-- One entry of `dataclasses.fields(cls)` together with the metadata the
codec reads: the field name, its binding, the dataclass `init` flag
(cleared for the discriminator field), the `union_discriminator` mark,
and `metadata["defining_class"]` as a class id. -/
structure FieldSpec where
  fname : String
  binding : Binding
  init : Bool
  isDiscriminator : Bool
  definingClass : Nat
  deriving DecidableEq, Repr
/-- A `StructType` subclass: its `dataclasses.fields` in declaration
order (inherited fields first), its `union_type_field` class attribute,
the ids of its proper ancestors (for `isinstance`), and the class
attributes set by union registration (`setattr(cls, key, value)`). -/
structure StructDef where
  sfields : List FieldSpec
  unionTypeField : Option String
  ancestors : List Nat
  classAttrs : List (String × Py)
  deriving Repr
/-- The class environment: class id → class. -/
abbrev Env := List StructDef
/-- The shared `StructType._union_options` table:
discriminator-field-name → (discriminator value → variant class id). -/
abbrev Registry := List (String × List (Py × Nat))
/-- `cls._union_options[f]`. -/
def regFind (reg : Registry) (f : String) : Option (List (Py × Nat)) :=
  match reg with
  | [] => Option.none
  | (k, es) :: rest => if k = f then some es else regFind rest f
/-- Python `==` on the scalar values a discriminator key can be (ints,
also Python's `True == 1` cross-type equality, strings, byte strings,
`None`); container-valued keys do not occur in the codec's registries. -/
def pyKeyEq : Py → Py → Bool
  | .int a, .int b => a == b
  | .int a, .bool b => a == (if b then (1 : Int) else 0)
  | .bool a, .int b => (if a then (1 : Int) else 0) == b
  | .bool a, .bool b => a == b
  | .str a, .str b => a == b
  | .bytes a, .bytes b => a == b
  | .none, .none => true
  | _, _ => false
/-- Dict lookup by Python `==` on the discriminator value. -/
def valLookup (es : List (Py × Nat)) (v : Py) : Option Nat :=
  match es with
  | [] => Option.none
  | (w, sid) :: rest => if pyKeyEq w v then some sid else valLookup rest v
/-- `cls.get_type(v)`: the variant registered under value `v` for
discriminator field `f`. -/
def unionLookup (reg : Registry) (f : String) (v : Py) : Option Nat :=
  match regFind reg f with
  | some es => valLookup es v
  | Option.none => Option.none
/-- `getattr(instance, name)`: the instance dict first, then the class
attributes (where union registration stored the discriminator value). -/
def instGetattr (env : Env) (p : Py) (nm : String) : Option Py :=
  match p with
  | .inst c vals =>
    match alookup vals nm with
    | some v => some v
    | Option.none =>
      match env[c]? with
      | some d => alookup d.classAttrs nm
      | Option.none => Option.none
  | _ => Option.none
/-- `isinstance(p, classes[sid])`. -/
def isinstancePy (env : Env) (p : Py) (sid : Nat) : Bool :=
  match p with
  | .inst c _ =>
    c == sid ||
      (match env[c]? with
       | some d => d.ancestors.contains sid
       | Option.none => false)
  | _ => false
/-- The field loop of `StructType.decode`: decode fields in declaration
order, each consuming a prefix of the remaining bytes, splitting the
results into `kwargs` (fields with `init=True`) and `no_init_data`.
`recDec` is the decoder for nested struct fields (`field_.type.decode`). -/
def decodeFieldsLoop (recDec : Nat → Bytes → Except PErr (Py × Bytes)) :
    List FieldSpec → Bytes →
    Except PErr (List (String × Py) × List (String × Py) × Bytes)
  | [], data => .ok ([], [], data)
  | fl :: rest, data => do
    let (value, data') ←
      match fl.binding with
      | .leaf f => Fmt.decode f data
      | .nested sid => recDec sid data
    let (kw, ni, rem) ← decodeFieldsLoop recDec rest data'
    if fl.init then .ok ((fl.fname, value) :: kw, ni, rem)
    else .ok (kw, (fl.fname, value) :: ni, rem)
/-- `StructType.decode`: decode all fields; if the class declares a
discriminator field, read its decoded value from `no_init_data`, look the
variant up in the union registry (unknown values are an error), and
re-run decode from the original byte buffer with the variant class;
otherwise build the instance from `kwargs`. -/
def structDecodeStep (env : Env) (reg : Registry)
    (recDec : Nat → Bytes → Except PErr (Py × Bytes)) (sid : Nat) (data : Bytes) :
    Except PErr (Py × Bytes) :=
  match env[sid]? with
  | Option.none => .error .typeError
  | some d => do
    let (kwargs, noInit, rest) ← decodeFieldsLoop recDec d.sfields data
    match d.unionTypeField with
    | some f =>
      match alookup noInit f with
      | Option.none => .error .typeError
      | some tv =>
        match unionLookup reg f tv with
        | Option.none => .error .typeError
        | some klass => recDec klass data
    | Option.none => .ok (.inst sid kwargs, rest)
/-- The same, closed under a fuel bound (plain `Nat.rec` so that closed
instances compute by definitional unfolding). -/
def structDecode (env : Env) (reg : Registry) (fuel : Nat) :
    Nat → Bytes → Except PErr (Py × Bytes) :=
  Nat.rec (fun _ _ => .error .fuelOut) (fun _ ih => structDecodeStep env reg ih) fuel
/-- Minimum size of one field binding
(`f.metadata.get("format", f.type).get_min_size()`). -/
def bindingMinSize (recMin : Nat → Bool → Option Nat) : Binding → Option Nat
  | .leaf f => some f.minSize
  | .nested sid => recMin sid false
/-- Sum of the minimum sizes of a list of fields. -/
def sumFieldsMinSize (recMin : Nat → Bool → Option Nat) : List FieldSpec → Option Nat
  | [] => some 0
  | fl :: rest => do
    let a ← bindingMinSize recMin fl.binding
    let b ← sumFieldsMinSize recMin rest
    some (a + b)
/-- `max([0] + [option.get_min_size(True) for option in variants])`. -/
def maxOptionsMinSize (recMin : Nat → Bool → Option Nat) : List (Py × Nat) → Option Nat
  | [] => some 0
  | (_, osid) :: rest => do
    let a ← recMin osid true
    let b ← maxOptionsMinSize recMin rest
    some (max a b)
/-- `StructType.get_min_size(no_inherited_fields)`: a union base sums all
its own fields and adds the maximum minimum size over all registered
variants (each counted over its non-inherited fields); otherwise the
relevant fields are either the fields this class itself defined
(`no_inherited_fields=True`) or all non-discriminator fields. -/
def structMinSizeStep (env : Env) (reg : Registry) (recMin : Nat → Bool → Option Nat)
    (sid : Nat) (noInherited : Bool) : Option Nat :=
  match env[sid]? with
  | Option.none => Option.none
  | some d =>
    match d.unionTypeField with
    | some f => do
      let own ← sumFieldsMinSize recMin d.sfields
      let opts ← regFind reg f
      let mx ← maxOptionsMinSize recMin opts
      some (own + mx)
    | Option.none =>
      sumFieldsMinSize recMin
        (if noInherited then d.sfields.filter (fun fl => fl.definingClass == sid)
         else d.sfields.filter (fun fl => !fl.isDiscriminator))
/-- The same, closed under a fuel bound. -/
def structMinSize (env : Env) (reg : Registry) (fuel : Nat) : Nat → Bool → Option Nat :=
  Nat.rec (fun _ _ => Option.none) (fun _ ih => structMinSizeStep env reg ih) fuel
/-- `d[k] = v` on a Python dict: overwrite in place, else append. -/
def dictSet (d : List (String × Py)) (k : String) (v : Py) : List (String × Py) :=
  match d with
  | [] => [(k, v)]
  | (k', v') :: rest => if k' = k then (k', v) :: rest else (k', v') :: dictSet rest k v
/-- `base.update(upd)` on Python dicts. -/
def dictUpdate (base upd : List (String × Py)) : List (String × Py) :=
  upd.foldl (fun acc kv => dictSet acc kv.1 kv.2) base
/-- The field loop of `StructType.tojson` (the non-union path): emit
every field of the class, leaf formats via their identity `tojson`,
nested struct fields via `value.tojson(value)` — dynamic dispatch on the
value's own class after an `isinstance` check against the declared
type.  `recTo` is the struct-level tojson at smaller fuel. -/
def tojsonFieldsLoop (env : Env) (recTo : Nat → Py → Except PErr Py) (inst : Py) :
    List FieldSpec → Except PErr (List (String × Py))
  | [] => .ok []
  | fl :: rest =>
    match instGetattr env inst fl.fname with
    | Option.none => .error .attrError
    | some value =>
      match fl.binding with
      | .leaf _ => do
        let restJson ← tojsonFieldsLoop env recTo inst rest
        .ok ((fl.fname, value) :: restJson)
      | .nested sid =>
        if isinstancePy env value sid then
          match value with
          | .inst c _ => do
            let j ← recTo c value
            let restJson ← tojsonFieldsLoop env recTo inst rest
            .ok ((fl.fname, j) :: restJson)
          | _ => .error .valueError
        else .error .valueError
/-- `StructType.tojson`: when the class is a union base and the instance
is of a different (variant) class, emit the discriminator field first
(found by name among the instance's fields, which must carry a format)
and merge the variant's full `tojson` over it; otherwise emit every
field of this class in order. -/
def structTojsonStep (env : Env) (recTo : Nat → Py → Except PErr Py)
    (sid : Nat) (inst : Py) : Except PErr Py :=
  match env[sid]? with
  | Option.none => .error .typeError
  | some d =>
    match d.unionTypeField with
    | some f =>
      match inst with
      | .inst c _ =>
        if c = sid then do
          let entries ← tojsonFieldsLoop env recTo inst d.sfields
          .ok (.dict entries)
        else if isinstancePy env inst sid then
          match env[c]? with
          | Option.none => .error .typeError
          | some dc =>
            match dc.sfields.find? (fun fl => fl.fname = f) with
            | Option.none => .error .typeError
            | some fl =>
              match fl.binding with
              | .leaf _ =>
                match instGetattr env inst f with
                | Option.none => .error .attrError
                | some dv => do
                  let varJson ← recTo c inst
                  match varJson with
                  | .dict entries => .ok (.dict (dictUpdate [(f, dv)] entries))
                  | _ => .error .typeError
              | .nested _ => .error .keyError
        else .error .valueError
      | _ => .error .valueError
    | Option.none => do
      let entries ← tojsonFieldsLoop env recTo inst d.sfields
      .ok (.dict entries)
/-- `StructType.tojson`, closed under a fuel bound. -/
def structTojson (env : Env) (reg : Registry) (fuel : Nat) : Nat → Py → Except PErr Py :=
  Nat.rec (fun _ _ => .error .fuelOut) (fun _ ih => structTojsonStep env ih) fuel
/-- The field loop of `StructType.fromjson`: `data.get(name)` (absent
keys read as `None`), leaf formats via their identity `fromjson`, nested
struct fields via the declared type's `fromjson`; results split into
`kwargs` and `no_init_data`. -/
def fromjsonFieldsLoop (recFrom : Nat → Py → Except PErr Py)
    (entries : List (String × Py)) :
    List FieldSpec → Except PErr (List (String × Py) × List (String × Py))
  | [] => .ok ([], [])
  | fl :: rest => do
    let raw :=
      match alookup entries fl.fname with
      | some v => v
      | Option.none => Py.none
    let value ←
      match fl.binding with
      | .leaf _ => (.ok raw : Except PErr Py)
      | .nested sid => recFrom sid raw
    let (kw, ni) ← fromjsonFieldsLoop recFrom entries rest
    if fl.init then .ok ((fl.fname, value) :: kw, ni)
    else .ok (kw, (fl.fname, value) :: ni)
/-- `StructType.fromjson`: parse every field of the class from the
mapping; a union base then reads the discriminator value from
`no_init_data`, resolves the variant in the registry (unknown values are
an error) and re-runs `fromjson` on the same mapping with the variant
class; otherwise construct the instance from `kwargs`.  Non-mapping
input fails (`data.copy()` on it raises). -/
def structFromjsonStep (env : Env) (reg : Registry) (recFrom : Nat → Py → Except PErr Py)
    (sid : Nat) (data : Py) : Except PErr Py :=
  match env[sid]? with
  | Option.none => .error .typeError
  | some d =>
    match data with
    | .dict entries => do
      let (kwargs, noInit) ← fromjsonFieldsLoop recFrom entries d.sfields
      match d.unionTypeField with
      | some f =>
        match alookup noInit f with
        | Option.none => .error .typeError
        | some tv =>
          match unionLookup reg f tv with
          | Option.none => .error .typeError
          | some klass => recFrom klass data
      | Option.none => .ok (.inst sid kwargs)
    | _ => .error .attrError
/-- `StructType.fromjson`, closed under a fuel bound. -/
def structFromjson (env : Env) (reg : Registry) (fuel : Nat) : Nat → Py → Except PErr Py :=
  Nat.rec (fun _ _ => .error .fuelOut) (fun _ ih => structFromjsonStep env reg ih) fuel
/-- The registration loop of `StructType.__init_subclass__`: for every
discriminator field name in the shared table, a keyword argument with
that name registers the declaring class under the given value; a value
already registered for that field is a `TypeError` (duplicate). -/
def registerOne (clsId : Nat) (kwargs : List (String × Py)) (key : String)
    (es : List (Py × Nat)) : Except PErr (List (Py × Nat)) :=
  match alookup kwargs key with
  | Option.none => .ok es
  | some v =>
    match valLookup es v with
    | some _ => .error .typeError
    | Option.none => .ok (es ++ [(v, clsId)])
/-- The loop over all entries of the shared table. -/
def registerOptions (clsId : Nat) (kwargs : List (String × Py)) :
    Registry → Except PErr Registry
  | [] => .ok []
  | (key, es) :: rest => do
    let es' ← registerOne clsId kwargs key es
    let rest' ← registerOptions clsId kwargs rest
    .ok ((key, es') :: rest')
/-- `StructType.__init_subclass__` as far as it touches the shared
`_union_options` table: declaring a union base whose
`union_type_field` is already a key of the table — the table is shared
by all `StructType` subclasses — is a `TypeError` (duplicate
union_type_field); otherwise an empty options dict is created for the
new field name, and then the keyword arguments register the class in the
table. -/
def initSubclass (reg : Registry) (clsId : Nat) (unionTypeField : Option String)
    (kwargs : List (String × Py)) : Except PErr Registry := do
  let reg1 ←
    match unionTypeField with
    | some f =>
      if (regFind reg f).isSome then (.error .typeError : Except PErr Registry)
      else .ok (reg ++ [(f, [])])
    | Option.none => .ok reg
  registerOptions clsId kwargs reg1
/-- The spec's union scenario: a base message class with a one-byte
discriminator field `msg_type` (class id 0). -/
def pingBase : StructDef :=
  ⟨[⟨"msg_type", .leaf (.simple .u8 1), false, true, 0⟩], some "msg_type", [], []⟩
/-- The variant `Ping`, registered under discriminator value 2 (class
id 1): it inherits `msg_type` and adds its own one-byte `payload`. -/
def pingVariant : StructDef :=
  ⟨[⟨"msg_type", .leaf (.simple .u8 1), false, true, 0⟩,
    ⟨"payload", .leaf (.simple .u8 1), true, false, 1⟩],
   Option.none, [0], [("msg_type", .int 2)]⟩
/-- Class environment of the scenario. -/
def demoEnv : Env := [pingBase, pingVariant]
/-- The union registry of the scenario: `msg_type` value 2 → `Ping`. -/
def demoReg : Registry := [("msg_type", [(.int 2, 1)])]
/-- The spec's description of the variant part of a union's minimum
size: the maximum, over all registered variants, of that variant's
minimum size counted over its own (non-inherited) fields; 0 when no
variants are registered. -/
def specMaxVariantOwnSizes (env : Env) (reg : Registry) (fuel : Nat) :
    List (Py × Nat) → Option Nat
  | [] => some 0
  | (_, osid) :: rest =>
    match env[osid]? with
    | Option.none => Option.none
    | some od => do
      let a ← sumFieldsMinSize (structMinSize env reg fuel)
        (od.sfields.filter (fun fl => fl.definingClass == osid))
      let b ← specMaxVariantOwnSizes env reg fuel rest
      some (max a b)
/-- The spec's formula for the minimum size of a union base: the sum of
the minimum sizes of the base's own fields plus
`specMaxVariantOwnSizes` of its registered variants. -/
def specUnionMinSize (env : Env) (reg : Registry) (fuel : Nat) (sid : Nat) : Option Nat :=
  match env[sid]? with
  | Option.none => Option.none
  | some d =>
    match d.unionTypeField with
    | Option.none => Option.none
    | some f => do
      let own ← sumFieldsMinSize (structMinSize env reg (fuel + 1)) d.sfields
      let opts ← regFind reg f
      let mx ← specMaxVariantOwnSizes env reg fuel opts
      some (own + mx)
/-- Pairwise-distinct strings (dataclasses guarantee distinct field
names within a class). -/
def namesNodup : List String → Bool
  | [] => true
  | n :: rest => !(rest.contains n) && namesNodup rest
/-- Well-typedness of one field's stored value: an `init` field's value
sits in the instance dict (a nested-struct value being an instance of
exactly the declared class, recursively well-typed); a non-`init` field
is leaf-bound with its value among the class attributes (the
discriminator). -/
def wtFieldOk (env : Env) (recWT : Py → Bool) (vals attrs : List (String × Py))
    (fl : FieldSpec) : Bool :=
  if fl.init then
    match fl.binding, alookup vals fl.fname with
    | .leaf _, some _ => true
    | .nested ssid, some v =>
      (match v with
       | .inst c _ => c == ssid
       | _ => false) && recWT v
    | _, Option.none => false
  else
    (match fl.binding with
     | .leaf _ => true
     | .nested _ => false) && (alookup attrs fl.fname).isSome
/-- One unfolding of well-typedness: the value is an instance of a
declared non-union class, with distinct field names, whose instance dict
binds exactly the `init` fields in declaration order, each field
well-typed. -/
def wellTypedStep (env : Env) (recWT : Py → Bool) : Py → Bool
  | .inst c vals =>
    match env[c]? with
    | some d =>
      d.unionTypeField.isNone &&
      namesNodup (d.sfields.map (fun fl => fl.fname)) &&
      (vals.map Prod.fst == (d.sfields.filter (fun fl => fl.init)).map (fun fl => fl.fname)) &&
      d.sfields.all (wtFieldOk env recWT vals d.classAttrs)
    | Option.none => false
  | _ => false
/-- Well-typed instances, to recursion depth `fuel`. -/
def wellTyped (env : Env) (fuel : Nat) : Py → Bool :=
  Nat.rec (fun _ => false) (fun _ ih => wellTypedStep env ih) fuel
/-- What the tojson field loop needs of one field: `getattr` succeeds,
and a nested-struct value is an instance of the declared class whose
recursive tojson yields a mapping. -/
def ToFieldPkg (env : Env) (recTo : Nat → Py → Except PErr Py) (inst : Py)
    (fl : FieldSpec) : Prop :=
  ∃ w, instGetattr env inst fl.fname = some w ∧
    ((∃ fv, fl.binding = .leaf fv) ∨
     (∃ ssid vv DD, fl.binding = .nested ssid ∧ w = .inst ssid vv ∧
        recTo ssid w = .ok (.dict DD)))
/-- What the fromjson field loop needs of one field: under a leaf
field's name the mapping holds exactly the instance's attribute value
(or is absent when the attribute is), and under a nested field's name a
value whose recursive fromjson is the attribute value. -/
def FromFieldPkg (recFrom : Nat → Py → Except PErr Py) (env : Env) (inst : Py)
    (j : List (String × Py)) (fl : FieldSpec) : Prop :=
  ((∃ fv, fl.binding = .leaf fv) →
    alookup j fl.fname = instGetattr env inst fl.fname) ∧
  (∀ ssid, fl.binding = .nested ssid →
    ∃ raw w, alookup j fl.fname = some raw ∧
      instGetattr env inst fl.fname = some w ∧ recFrom ssid raw = .ok w)
/-- `dataclasses.fields` of a class id. -/
def classFields (env : Env) (c : Nat) : List FieldSpec :=
  match env[c]? with
  | some d => d.sfields
  | Option.none => []
/-- The conditions under which a union base class `S` dispatches
tojson/fromjson to the concrete variant class `c`: `S` declares
discriminator field `f` (a leaf field of every class involved), `c` is a
registered variant of it inheriting `S`'s fields as a prefix, and the
discriminator attribute of the instance is registered back to `c`. -/
def UnionDispatchHyps (env : Env) (reg : Registry) (S c : Nat)
    (vals : List (String × Py)) : Prop :=
  ∃ dS dc f flD fv v ext,
    env[S]? = some dS ∧ dS.unionTypeField = some f ∧
    env[c]? = some dc ∧ ¬(c = S) ∧ dc.ancestors.contains S = true ∧
    dc.sfields = dS.sfields ++ ext ∧
    (∀ fl ∈ dS.sfields, ∃ fw, fl.binding = .leaf fw) ∧
    dc.sfields.find? (fun fl => fl.fname = f) = some flD ∧ flD.binding = .leaf fv ∧
    instGetattr env (.inst c vals) f = some v ∧
    unionLookup reg f v = some c ∧
    (∃ flS, flS ∈ dS.sfields ∧ flS.fname = f ∧ flS.init = false)
theorem toLE_length (w : Nat) : ∀ v, (toLE v w).length = w := by
  induction w with
  | zero => intro v; rfl
  | succ w ih => intro v; simp [toLE, ih]
/-- `struct.pack` of an in-range integer: the two's-complement
little-endian byte string. -/
theorem packIntK_eq (k : IntKind) (n : Int) (h : intInRange k n) :
    packIntK k n = .ok (toLE (n % (2 ^ (8 * k.size) : Int)).toNat k.size) := by
  cases k <;>
  · simp only [intInRange, IntKind.signed, IntKind.size] at h
    simp only [packIntK, IntKind.signed, IntKind.size]
    norm_num at h ⊢
    first
      | (rw [if_pos h, Int.emod_eq_of_lt h.1 h.2])
      | (rw [if_pos h])
      | (intro hc; exact absurd (hc h.1) (by omega))
/-- Unpacking the bytes `struct.pack` produced restores the integer. -/
theorem unpackIntK_packed (k : IntKind) (n : Int) (h : intInRange k n) :
    unpackIntK k (toLE (n % (2 ^ (8 * k.size) : Int)).toNat k.size) = n := by
  cases k <;>
  · simp only [intInRange, IntKind.signed, IntKind.size] at h
    simp only [unpackIntK, IntKind.signed, IntKind.size, toLE, fromLE]
    norm_num at h ⊢
    omega
/-- Packing a sequence of in-range ints succeeds, produces
`k.size * len` bytes, and unpacking the chunk restores the sequence. -/
theorem packAll_roundtrip (k : IntKind) (xs : List Py)
    (h : ∀ x ∈ xs, ∃ n, x = .int n ∧ intInRange k n) :
    ∃ bs, packAll k xs = .ok bs ∧ bs.length = k.size * xs.length ∧
      unpackChunks k xs.length bs = xs := by
  induction xs with
  | nil => exact ⟨[], rfl, by simp, rfl⟩
  | cons x rest ih =>
    obtain ⟨n, rfl, hn⟩ := h _ (List.mem_cons_self _ _)
    obtain ⟨bs', hbs', hlen', hun'⟩ := ih (fun y hy => h y (List.mem_cons_of_mem _ hy))
    refine ⟨toLE (n % (2 ^ (8 * k.size) : Int)).toNat k.size ++ bs', ?_, ?_, ?_⟩
    · simp only [packAll, packIntK_eq k n hn, hbs']
      rfl
    · simp [toLE_length, hlen']
      ring
    · simp only [List.length_cons, unpackChunks]
      rw [List.take_left' (toLE_length _ _), List.drop_left' (toLE_length _ _)]
      rw [unpackIntK_packed k n hn, hun']
/-- C9: for every integer `SimpleFormat` descriptor, every legal value
`v` and every byte suffix `s`, `decode(encode(v) ++ s) == (v, s)`:
decode consumes exactly the declared width (`encode(v)` has exactly
`minimum_size()` bytes) and returns the trailing bytes unchanged. -/
theorem C9_simple_decode_encode_suffix (k : IntKind) (num : Nat) (v : Py) (s : Bytes)
    (h : simpleLegal k num v) :
    ∃ bs, Fmt.encode (.simple k num) v = .ok (.bytes bs) ∧
      bs.length = (Fmt.simple k num).minSize ∧
      Fmt.decode (.simple k num) (bs ++ s) = .ok (v, s) := by
  by_cases h1 : num = 1
  · subst h1
    simp only [simpleLegal, reduceIte] at h
    obtain ⟨n, rfl, hn⟩ := h
    have hlen := toLE_length k.size (n % (2 ^ (8 * k.size) : Int)).toNat
    refine ⟨toLE (n % (2 ^ (8 * k.size) : Int)).toNat k.size, ?_, ?_, ?_⟩
    · simp only [Fmt.encode, encodeSimple, reduceIte, packIntK_eq k n hn]
      rfl
    · simp [Fmt.minSize, hlen]
    · simp only [Fmt.decode, decodeSimple, Nat.mul_one]
      rw [if_neg (by rw [List.length_append, hlen]; omega)]
      rw [List.take_left' hlen, List.drop_left' hlen]
      simp [unpackChunks, List.take_of_length_le (le_of_eq hlen), unpackIntK_packed k n hn]
  · simp only [simpleLegal, if_neg h1] at h
    obtain ⟨xs, rfl, hxlen, hx⟩ := h
    obtain ⟨bs, hbs, hlen, hun⟩ := packAll_roundtrip k xs hx
    have hsz : bs.length = k.size * num := by rw [hlen, hxlen]
    refine ⟨bs, ?_, ?_, ?_⟩
    · simp only [Fmt.encode, encodeSimple, if_neg h1, hxlen, reduceIte, hbs]
      rfl
    · simp [Fmt.minSize, hsz]
    · simp only [Fmt.decode, decodeSimple]
      rw [if_neg (by rw [List.length_append, hsz]; omega)]
      rw [List.take_left' hsz, List.drop_left' hsz, ← hxlen, hun]
      rcases xs with _ | ⟨a, _ | ⟨b, t⟩⟩
      · rfl
      · simp only [List.length_singleton] at hxlen
        exact absurd hxlen.symm h1
      · rfl
/-- Witness for C9 at the spec's own scenario: a one-byte unsigned
scalar with value 5 and suffix `[9]`. -/
theorem C9_simple_decode_encode_suffix_witness : ∃ bs,
    Fmt.encode (.simple .u8 1) (.int 5) = .ok (.bytes bs) ∧
    bs.length = (Fmt.simple .u8 1).minSize ∧
    Fmt.decode (.simple .u8 1) (bs ++ [9]) = .ok (.int 5, [9]) :=
  C9_simple_decode_encode_suffix .u8 1 (.int 5) [9]
    ⟨5, rfl, by norm_num [intInRange, IntKind.signed, IntKind.size]⟩
/-- C1 (code bug): the leaf round-trip `decode(encode(v)) == (v, b"")`
fails in the code for two of the six descriptors.  `FixedStrFormat.encode`
ends in a trailing comma (line 97) and so returns the 1-tuple
`(b"ab\x00\x00",)` instead of a byte string — feeding that tuple to
`decode` raises `AttributeError` instead of returning `("ab", b"")` —
and `VarStrFormat.encode` computes `len(str)`, `len` of the builtin type
(line 165), raising `TypeError` for every value. -/
theorem C1_leaf_roundtrip_failing_inputs :
    Fmt.encode (.fixedStr 4) (.str "ab") = .ok (.tuple [.bytes [97, 98, 0, 0]]) ∧
    Fmt.encode (.varStr .u8) (.str "hi") = .error .typeError :=
  ⟨rfl, rfl⟩
/-- C5 (code bug): `encode("ab")` of the 4-byte fixed string descriptor
is not the 4-byte string `61 62 00 00`: the trailing comma in
`FixedStrFormat.encode` makes it the 1-tuple containing those bytes.
The decode half of the claim does hold: decoding the bytes
`61 62 00 00` returns `"ab"`. -/
theorem C5_fixedstr_encode_tuple_decode_ok :
    Fmt.encode (.fixedStr 4) (.str "ab") = .ok (.tuple [.bytes [0x61, 0x62, 0, 0]]) ∧
    Fmt.decode (.fixedStr 4) [0x61, 0x62, 0, 0] = .ok (.str "ab", []) :=
  ⟨rfl, rfl⟩
/-- C3 counterexample: the 4-byte fixed string descriptor has
`minimum_size() = 4`, yet decoding the 2-byte buffer `61 62` does not
raise — `FixedStrFormat.decode` slices without a size check and returns
`("ab", b"")` — refuting the claim that every descriptor raises a size
error on a buffer shorter than its minimum size. -/
theorem C3_truncation_counterexample :
    ([97, 98] : Bytes).length < (Fmt.fixedStr 4).minSize ∧
    Fmt.decode (.fixedStr 4) [97, 98] = .ok (.str "ab", []) :=
  ⟨by decide, rfl⟩
theorem decodeSimple_short (k : IntKind) (num : Nat) (data : Bytes)
    (h : data.length < k.size * num) :
    decodeSimple k num data = .error .structError := by
  simp only [decodeSimple]
  rw [if_pos h]
/-- C3 amended: `decode` on a buffer strictly shorter than
`minimum_size()` raises a size error for `SimpleFormat`, `BoolFormat`,
`VarArrayFormat` and `VarStrFormat`; but `FixedStrFormat` and
`FixedHexFormat` perform no size check at all: `FixedHexFormat.decode`
succeeds on every buffer and `FixedStrFormat.decode` succeeds on every
buffer whose stripped truncation is valid UTF-8 (in particular on every
ASCII buffer), both decoding the truncated content instead of raising. -/
theorem C3_truncation_amended :
    (∀ (k : IntKind) (num : Nat) (data : Bytes),
      data.length < (Fmt.simple k num).minSize →
      Fmt.decode (.simple k num) data = .error .structError) ∧
    (∀ data : Bytes, data.length < Fmt.boolFmt.minSize →
      Fmt.decode .boolFmt data = .error .structError) ∧
    (∀ (child : Fmt) (numK : IntKind) (data : Bytes),
      data.length < (Fmt.varArray child numK).minSize →
      Fmt.decode (.varArray child numK) data = .error .structError) ∧
    (∀ (numK : IntKind) (data : Bytes), data.length < (Fmt.varStr numK).minSize →
      Fmt.decode (.varStr numK) data = .error .structError) ∧
    (∀ (num : Nat) (sep : String) (data : Bytes), ∃ v rest,
      Fmt.decode (.fixedHex num sep) data = .ok (v, rest)) ∧
    (∀ (num : Nat) (data : Bytes) (cs : List Char),
      utf8Decode (rstripZeros (data.take num)) = some cs →
      Fmt.decode (.fixedStr num) data = .ok (.str (String.mk cs), data.drop num)) := by
  refine ⟨?_, ?_, ?_, ?_, ?_, ?_⟩
  · intro k num data hlen
    simp only [Fmt.minSize] at hlen
    exact decodeSimple_short k num data hlen
  · intro data hlen
    simp only [Fmt.minSize] at hlen
    have h' : data.length < IntKind.u8.size * 1 := by simpa [IntKind.size] using hlen
    simp only [Fmt.decode, decodeSimple_short _ _ _ h']
    rfl
  · intro child numK data hlen
    simp only [Fmt.minSize] at hlen
    have h' : data.length < numK.size * 1 := by simpa using hlen
    simp only [Fmt.decode, decodeSimple_short _ _ _ h']
    rfl
  · intro numK data hlen
    simp only [Fmt.minSize] at hlen
    have h' : data.length < numK.size * 1 := by simpa using hlen
    simp only [Fmt.decode, decodeSimple_short _ _ _ h']
    rfl
  · intro num sep data
    exact ⟨_, _, rfl⟩
  · intro num data cs hcs
    simp [Fmt.decode, hcs]
/-- Witness for the amended C3 at concrete inputs: a short buffer for a
2-byte scalar, for bool, for both variable-length prefixes, and short
buffers that FixedHexFormat and FixedStrFormat decode without error. -/
theorem C3_truncation_amended_witness :
    Fmt.decode (.simple .u16 1) [5] = .error .structError ∧
    Fmt.decode .boolFmt [] = .error .structError ∧
    Fmt.decode (.varArray (.simple .u8 1) .u16) [3] = .error .structError ∧
    Fmt.decode (.varStr .u16) [2] = .error .structError ∧
    (∃ v rest, Fmt.decode (.fixedHex 6 ":") [170] = .ok (v, rest)) ∧
    (∃ v rest, Fmt.decode (.fixedStr 4) [97, 98] = .ok (v, rest)) :=
  ⟨C3_truncation_amended.1 .u16 1 [5] (by decide),
   C3_truncation_amended.2.1 [] (by decide),
   C3_truncation_amended.2.2.1 (.simple .u8 1) .u16 [3] (by decide),
   C3_truncation_amended.2.2.2.1 .u16 [2] (by decide),
   C3_truncation_amended.2.2.2.2.1 6 ":" [170],
   ⟨_, _, C3_truncation_amended.2.2.2.2.2 4 [97, 98] "ab".data rfl⟩⟩
theorem isAsciiLower_of_isAsciiUpper {c : Char} (h : isAsciiUpper c = true) :
    isAsciiLower c = false := by
  simp only [isAsciiUpper, Bool.and_eq_true, decide_eq_true_eq] at h
  apply Bool.eq_false_iff.mpr
  intro hl
  simp only [isAsciiLower, Bool.and_eq_true, decide_eq_true_eq] at hl
  omega
theorem specUnderscoreSplit_upper_cons {c : Char} (rest : List Char)
    (h : isAsciiUpper c = true) :
    specUnderscoreSplit (c :: rest) = c :: specUnderscoreSplit rest := by
  cases rest with
  | nil => rfl
  | cons c3 rest' =>
    simp [specUnderscoreSplit, isAsciiLower_of_isAsciiUpper h]
/-- The non-overlapping regex scan inserts an underscore at exactly the
pairwise lowercase-to-uppercase transitions: skipping past the matched
uppercase letter loses nothing, because an uppercase letter can never
start another match. -/
theorem subLowerUpper_eq_spec : ∀ l, subLowerUpper l = specUnderscoreSplit l := by
  intro l
  induction l using subLowerUpper.induct with
  | case1 => rfl
  | case2 => rfl
  | case3 c1 c2 rest hcond ih =>
    have h2 : isAsciiUpper c2 = true := (Bool.and_eq_true _ _ |>.mp hcond).2
    simp [subLowerUpper, specUnderscoreSplit, hcond, ih,
      specUnderscoreSplit_upper_cons rest h2]
  | case4 c1 c2 rest hcond ih =>
    simp only [subLowerUpper, specUnderscoreSplit, if_neg hcond, ih, List.singleton_append]
/-- C8: for every field name containing no underscore, the C generator's
`normalize_name` produces exactly the underscore-separated form described
by the spec — an underscore inserted at each lowercase-letter to
uppercase-letter transition, rendered lowercase. -/
theorem C8_normalize_name_camel (name : String) (h : '_' ∉ name.data) :
    normalizeName name = String.mk ((specUnderscoreSplit name.data).map asciiLower) := by
  rw [normalizeName, if_neg h, subLowerUpper_eq_spec]
/-- Witness for C8 at the concrete name `"msgType"`, which normalizes to
`"msg_type"`. -/
theorem C8_normalize_name_camel_witness :
    ('_' ∉ "msgType".data) ∧
    normalizeName "msgType" = String.mk ((specUnderscoreSplit "msgType".data).map asciiLower) ∧
    normalizeName "msgType" = "msg_type" :=
  ⟨by decide, C8_normalize_name_camel "msgType" (by decide), rfl⟩
theorem structDecode_succ (env : Env) (reg : Registry) (fuel : Nat) :
    structDecode env reg (fuel + 1) = structDecodeStep env reg (structDecode env reg fuel) :=
  rfl
theorem structMinSize_succ (env : Env) (reg : Registry) (fuel : Nat) :
    structMinSize env reg (fuel + 1) = structMinSizeStep env reg (structMinSize env reg fuel) :=
  rfl
theorem structTojson_succ (env : Env) (reg : Registry) (fuel : Nat) :
    structTojson env reg (fuel + 1) = structTojsonStep env (structTojson env reg fuel) :=
  rfl
theorem structFromjson_succ (env : Env) (reg : Registry) (fuel : Nat) :
    structFromjson env reg (fuel + 1) = structFromjsonStep env reg (structFromjson env reg fuel) :=
  rfl
theorem bind_ok_eq {A B : Type} (a : A) (g : A → Except PErr B) :
    (do let x ← (Except.ok a : Except PErr A); g x) = g a := rfl
theorem bind_error_eq {A B : Type} (e : PErr) (g : A → Except PErr B) :
    (do let x ← (Except.error e : Except PErr A); g x) = (.error e : Except PErr B) := rfl
/-- Decoding with a class that declares no discriminator returns an
instance of exactly that class. -/
theorem structDecode_nonunion_inst (env : Env) (reg : Registry) (fuel sid : Nat)
    (d : StructDef) (data : Bytes) (i : Py) (rem : Bytes)
    (hd : env[sid]? = some d) (hu : d.unionTypeField = Option.none)
    (hdec : structDecode env reg fuel sid data = .ok (i, rem)) :
    ∃ vals, i = .inst sid vals := by
  cases fuel with
  | zero => exact absurd hdec (by simp [structDecode])
  | succ fuel' =>
    rw [structDecode_succ] at hdec
    simp only [structDecodeStep, hd, hu] at hdec
    cases hl : decodeFieldsLoop (structDecode env reg fuel') d.sfields data with
    | error e =>
      rw [hl, bind_error_eq] at hdec
      simp at hdec
    | ok t =>
      obtain ⟨kw', ni', rest'⟩ := t
      rw [hl] at hdec
      simp only [bind_ok_eq, Except.ok.injEq, Prod.mk.injEq] at hdec
      exact ⟨kw', hdec.1.symm⟩
/-- C2: decoding a union base on a buffer whose decoded discriminator
value is registered re-runs decode from the original byte buffer with
the registered variant class, and (the variant declaring no nested union
of its own) the result is an instance of exactly that variant with the
variant's remainder — never the base class. -/
theorem C2_union_resolution (env : Env) (reg : Registry) (fuel sid vsid : Nat)
    (d vd : StructDef) (f : String) (data rest rem : Bytes)
    (kw ni : List (String × Py)) (tv i : Py)
    (hd : env[sid]? = some d) (hf : d.unionTypeField = some f)
    (hloop : decodeFieldsLoop (structDecode env reg fuel) d.sfields data = .ok (kw, ni, rest))
    (htv : alookup ni f = some tv)
    (hreg : unionLookup reg f tv = some vsid)
    (hvd : env[vsid]? = some vd) (hvu : vd.unionTypeField = Option.none)
    (hdec : structDecode env reg fuel vsid data = .ok (i, rem)) :
    structDecode env reg (fuel + 1) sid data = .ok (i, rem) ∧
    ∃ vals, i = .inst vsid vals := by
  constructor
  · rw [structDecode_succ]
    simp only [structDecodeStep, hd, hf]
    rw [hloop]
    simp only [bind_ok_eq, htv, hreg]
    exact hdec
  · exact structDecode_nonunion_inst env reg fuel vsid vd data i rem hvd hvu hdec
/-- C7: decoding a union base on a buffer whose decoded discriminator
value is not registered in the union registry is an error (the code
raises `TypeError('... no known')`); no instance is returned. -/
theorem C7_unknown_discriminator (env : Env) (reg : Registry) (fuel sid : Nat)
    (d : StructDef) (f : String) (data rest : Bytes)
    (kw ni : List (String × Py)) (tv : Py)
    (hd : env[sid]? = some d) (hf : d.unionTypeField = some f)
    (hloop : decodeFieldsLoop (structDecode env reg fuel) d.sfields data = .ok (kw, ni, rest))
    (htv : alookup ni f = some tv)
    (hreg : unionLookup reg f tv = Option.none) :
    structDecode env reg (fuel + 1) sid data = .error .typeError := by
  rw [structDecode_succ]
  simp only [structDecodeStep, hd, hf]
  rw [hloop]
  simp only [bind_ok_eq, htv, hreg]
/-- Witness for C2: decoding `02 07` with the union base yields the
`Ping` instance with payload 7 and empty remainder. -/
theorem C2_union_resolution_witness :
    structDecode demoEnv demoReg 2 0 [2, 7] = .ok (.inst 1 [("payload", .int 7)], []) ∧
    ∃ vals, (Py.inst 1 [("payload", .int 7)]) = .inst 1 vals :=
  C2_union_resolution demoEnv demoReg 1 0 1 pingBase pingVariant "msg_type" [2, 7] [7] []
    [] [("msg_type", .int 2)] (.int 2) (.inst 1 [("payload", .int 7)])
    rfl rfl rfl rfl rfl rfl rfl rfl
/-- Witness for C7: decoding `09 07` with the union base is an error
because no variant is registered under discriminator value 9. -/
theorem C7_unknown_discriminator_witness :
    structDecode demoEnv demoReg 2 0 [9, 7] = .error .typeError :=
  C7_unknown_discriminator demoEnv demoReg 1 0 pingBase "msg_type" [9, 7] [7]
    [] [("msg_type", .int 9)] (.int 9)
    rfl rfl rfl rfl rfl
/-- Registration never adds or removes discriminator-field names from
the shared table: it only appends values under existing names. -/
theorem registerOptions_keys (clsId : Nat) (kwargs : List (String × Py)) :
    ∀ (r r' : Registry), registerOptions clsId kwargs r = .ok r' →
      r'.map Prod.fst = r.map Prod.fst := by
  intro r
  induction r with
  | nil =>
    intro r' h
    simp only [registerOptions, Except.ok.injEq] at h
    rw [← h]
  | cons kv rest ih =>
    obtain ⟨key, es⟩ := kv
    intro r' h
    simp only [registerOptions] at h
    cases h1 : registerOne clsId kwargs key es with
    | error e =>
      rw [h1, bind_error_eq] at h
      simp at h
    | ok es' =>
      rw [h1] at h
      simp only [bind_ok_eq] at h
      cases h2 : registerOptions clsId kwargs rest with
      | error e =>
        rw [h2, bind_error_eq] at h
        simp at h
      | ok rest' =>
        rw [h2] at h
        simp only [bind_ok_eq, Except.ok.injEq] at h
        rw [← h]
        simp [ih rest' h2]
theorem regFind_isSome_of_mem (r : Registry) (f : String) (h : f ∈ r.map Prod.fst) :
    (regFind r f).isSome := by
  induction r with
  | nil => simp at h
  | cons kv rest ih =>
    obtain ⟨k, es⟩ := kv
    simp only [List.map_cons, List.mem_cons] at h
    simp only [regFind]
    by_cases hk : k = f
    · simp [hk]
    · rw [if_neg hk]
      exact ih (h.resolve_left (fun hh => hk hh.symm))
/-- C10: the union registry is one table shared by every `StructType`
subclass.  Once any class has been declared as a union base over
discriminator field name `f`, declaring any other class — related to the
first or not — as a union base over the same field name fails with the
duplicate-`union_type_field` `TypeError`. -/
theorem C10_shared_registry_duplicate (reg reg' : Registry) (a b : Nat) (f : String)
    (ka kb : List (String × Py))
    (h1 : initSubclass reg a (some f) ka = .ok reg') :
    initSubclass reg' b (some f) kb = .error .typeError := by
  simp only [initSubclass] at h1 ⊢
  by_cases hrf : (regFind reg f).isSome
  · rw [if_pos hrf, bind_error_eq] at h1
    simp at h1
  · rw [if_neg hrf, bind_ok_eq] at h1
    have hkeys := registerOptions_keys a ka _ _ h1
    have hm : f ∈ reg'.map Prod.fst := by
      rw [hkeys]
      simp
    rw [if_pos (regFind_isSome_of_mem reg' f hm), bind_error_eq]
/-- Witness for C10: after declaring class 0 as a union base over
`msg_type` starting from an empty registry, declaring the unrelated
class 1 as a union base over `msg_type` raises the duplicate error. -/
theorem C10_shared_registry_duplicate_witness :
    initSubclass [("msg_type", [])] 1 (some "msg_type") [] = .error .typeError :=
  C10_shared_registry_duplicate [] [("msg_type", [])] 0 1 "msg_type" [] [] rfl
theorem obind_some {A B : Type} (a : A) (g : A → Option B) :
    (do let x ← some a; g x) = g a := rfl
theorem obind_none {A B : Type} (g : A → Option B) :
    (do let x ← (Option.none : Option A); g x) = (Option.none : Option B) := rfl
/-- `get_min_size(no_inherited_fields=True)` of a non-union class sums
exactly the fields whose `defining_class` is the class itself. -/
theorem structMinSize_option_own (env : Env) (reg : Registry) (fuel osid : Nat)
    (od : StructDef) (hod : env[osid]? = some od) (hu : od.unionTypeField = Option.none) :
    structMinSize env reg (fuel + 1) osid true =
      sumFieldsMinSize (structMinSize env reg fuel)
        (od.sfields.filter (fun fl => fl.definingClass == osid)) := by
  rw [structMinSize_succ]
  simp [structMinSizeStep, hod, hu]
theorem maxOptions_eq_spec (env : Env) (reg : Registry) (fuel : Nat)
    (opts : List (Py × Nat))
    (h : ∀ e ∈ opts, ∃ od, env[e.2]? = some od ∧ od.unionTypeField = Option.none) :
    maxOptionsMinSize (structMinSize env reg (fuel + 1)) opts =
      specMaxVariantOwnSizes env reg fuel opts := by
  induction opts with
  | nil => rfl
  | cons e rest ih =>
    obtain ⟨w, osid⟩ := e
    obtain ⟨od, hod, hu⟩ := h _ (List.mem_cons_self _ _)
    simp only [maxOptionsMinSize, specMaxVariantOwnSizes, hod]
    rw [structMinSize_option_own env reg fuel osid od hod hu,
      ih (fun y hy => h y (List.mem_cons_of_mem _ hy))]
/-- C6: for a union base class, `get_min_size()` equals the sum of the
minimum sizes of the base's own fields plus the maximum over all
registered variants of the variant's minimum size counted over its own
(non-inherited) fields, the maximum being 0 with no variants — the
spec's worst-case receive-buffer formula (`specUnionMinSize`). -/
theorem C6_union_min_size (env : Env) (reg : Registry) (fuel sid : Nat)
    (d : StructDef) (f : String) (opts : List (Py × Nat))
    (hd : env[sid]? = some d) (hf : d.unionTypeField = some f)
    (hopts : regFind reg f = some opts)
    (hvar : ∀ e ∈ opts, ∃ od, env[e.2]? = some od ∧ od.unionTypeField = Option.none) :
    structMinSize env reg (fuel + 2) sid false = specUnionMinSize env reg fuel sid := by
  show structMinSize env reg (fuel + 1 + 1) sid false = _
  rw [structMinSize_succ]
  simp only [structMinSizeStep, specUnionMinSize, hd, hf, hopts]
  cases hsum : sumFieldsMinSize (structMinSize env reg (fuel + 1)) d.sfields with
  | none => simp only [hsum, obind_none]
  | some own =>
    simp only [hsum, obind_some]
    rw [maxOptions_eq_spec env reg fuel opts hvar]
/-- Witness for C6 at the Ping scenario: minimum size of the union base
is 1 (own `msg_type` byte) + 1 (largest variant's own fields) = 2, and
the code's `get_min_size` agrees with the spec's formula. -/
theorem C6_union_min_size_witness :
    structMinSize demoEnv demoReg 2 0 false = specUnionMinSize demoEnv demoReg 0 0 ∧
    structMinSize demoEnv demoReg 2 0 false = some 2 :=
  ⟨C6_union_min_size demoEnv demoReg 0 0 pingBase "msg_type" [(.int 2, 1)] rfl rfl rfl
      (by
        intro e he
        obtain rfl := List.mem_singleton.mp he
        exact ⟨pingVariant, rfl, rfl⟩),
   rfl⟩
theorem wellTyped_succ (env : Env) (fuel : Nat) :
    wellTyped env (fuel + 1) = wellTypedStep env (wellTyped env fuel) := rfl
theorem namesNodup_iff (l : List String) : namesNodup l = true ↔ l.Nodup := by
  induction l with
  | nil => simp [namesNodup]
  | cons n rest ih =>
    simp [namesNodup, List.nodup_cons, ih, List.contains_iff_exists_mem_beq]
theorem alookup_eq_none (l : List (String × Py)) (k : String)
    (h : k ∉ l.map Prod.fst) : alookup l k = Option.none := by
  induction l with
  | nil => rfl
  | cons kv rest ih =>
    obtain ⟨k', v'⟩ := kv
    simp only [List.map_cons, List.mem_cons] at h
    push_neg at h
    simp only [alookup, if_neg (fun hh : k' = k => h.1 hh.symm)]
    exact ih h.2
theorem alookup_dictSet (d : List (String × Py)) (k : String) (v : Py) (q : String) :
    alookup (dictSet d k v) q = if k = q then some v else alookup d q := by
  induction d with
  | nil => simp [dictSet, alookup]
  | cons kv rest ih =>
    obtain ⟨k', v'⟩ := kv
    by_cases hk : k' = k
    · subst hk
      by_cases hq : k' = q <;> simp [dictSet, alookup, hq]
    · by_cases hq : k' = q
      · subst hq
        have : ¬(k = k') := fun hh => hk hh.symm
        simp [dictSet, alookup, hk, this]
      · simp [dictSet, alookup, hk, hq, ih]
/-- Folding `dict.update` entries with pairwise-distinct keys over a
base dict: present keys read the update's value, absent ones the
base's. -/
theorem alookup_dictUpdate (D : List (String × Py)) :
    namesNodup (D.map Prod.fst) = true →
    ∀ (base : List (String × Py)) (q : String),
      alookup (dictUpdate base D) q =
        (match alookup D q with
         | some w => some w
         | Option.none => alookup base q) := by
  induction D with
  | nil =>
    intro _ base q
    rfl
  | cons kv rest ih =>
    intro hnd base q
    obtain ⟨k, w⟩ := kv
    rw [namesNodup_iff] at hnd
    simp only [List.map_cons, List.nodup_cons] at hnd
    show alookup (dictUpdate (dictSet base k w) rest) q = _
    rw [ih ((namesNodup_iff _).mpr hnd.2)]
    by_cases hq : k = q
    · subst hq
      have hnone : alookup rest k = Option.none := alookup_eq_none _ _ hnd.1
      simp [alookup, hnone, alookup_dictSet]
    · cases hr : alookup rest q with
      | some u => simp [alookup, hq, hr]
      | none => simp [alookup, hq, hr, alookup_dictSet]
/-- Updating a Python dict with `[(f, v)]` when `f` is already present
with that very value (keys distinct) changes no lookup. -/
theorem alookup_dictUpdate_eq (D : List (String × Py)) (f : String) (v : Py)
    (hnd : namesNodup (D.map Prod.fst) = true) (hv : alookup D f = some v) (q : String) :
    alookup (dictUpdate [(f, v)] D) q = alookup D q := by
  rw [alookup_dictUpdate D hnd]
  cases hq : alookup D q with
  | some w => rfl
  | none =>
    have hfq : ¬(f = q) := by
      intro h
      rw [h, hq] at hv
      cases hv
    simp [alookup, hfq]
/-- The tojson field loop succeeds and produces one entry per field, in
order; with distinct field names, the entry under a leaf field's name is
its attribute value and the entry under a nested field's name is the
recursive tojson of its attribute value. -/
theorem tojsonLoop_ok (env : Env) (recTo : Nat → Py → Except PErr Py) (inst : Py) :
    ∀ (flds : List FieldSpec), (∀ fl ∈ flds, ToFieldPkg env recTo inst fl) →
    ∃ D, tojsonFieldsLoop env recTo inst flds = .ok D ∧
      D.map Prod.fst = flds.map (fun fl => fl.fname) ∧
      (namesNodup (flds.map (fun fl => fl.fname)) = true →
        ∀ fl ∈ flds,
          ((∃ fv, fl.binding = .leaf fv) →
            alookup D fl.fname = instGetattr env inst fl.fname) ∧
          (∀ ssid, fl.binding = .nested ssid →
            ∃ w DD, instGetattr env inst fl.fname = some w ∧
              alookup D fl.fname = some (.dict DD) ∧ recTo ssid w = .ok (.dict DD))) := by
  intro flds
  induction flds with
  | nil => exact fun _ => ⟨[], rfl, rfl, fun _ fl hfl => absurd hfl (List.not_mem_nil fl)⟩
  | cons fl rest ih =>
    intro h
    obtain ⟨Drest, hloop, hkeys, hpt⟩ := ih (fun y hy => h y (List.mem_cons_of_mem _ hy))
    obtain ⟨w, hget, hcase⟩ := h fl (List.mem_cons_self _ _)
    have hnd_split : namesNodup ((fl :: rest).map (fun x => x.fname)) = true →
        fl.fname ∉ rest.map (fun x => x.fname) ∧
          namesNodup (rest.map (fun x => x.fname)) = true := by
      intro hnd
      rw [List.map_cons, namesNodup_iff, List.nodup_cons] at hnd
      exact ⟨hnd.1, (namesNodup_iff _).mpr hnd.2⟩
    rcases hcase with ⟨fv, hb⟩ | ⟨ssid, vv, DD, hb, hw, hrec⟩
    · refine ⟨(fl.fname, w) :: Drest, ?_, ?_, ?_⟩
      · simp only [tojsonFieldsLoop, hget, hb, hloop, bind_ok_eq]
      · simp [hkeys]
      · intro hnd flx hflx
        obtain ⟨hne, hndrest⟩ := hnd_split hnd
        rcases List.mem_cons.mp hflx with rfl | hmem
        · constructor
          · intro _
            simp [alookup, hget]
          · intro ssid hbx
            rw [hb] at hbx
            cases hbx
        · have hnex : ¬(fl.fname = flx.fname) := by
            intro he
            exact hne (he ▸ List.mem_map_of_mem (fun x => x.fname) hmem)
          constructor
          · intro hlx
            simp only [alookup, if_neg hnex]
            exact ((hpt hndrest flx hmem).1 hlx)
          · intro ssid hbx
            obtain ⟨wx, DDx, h1, h2, h3⟩ := (hpt hndrest flx hmem).2 ssid hbx
            exact ⟨wx, DDx, h1, by simp only [alookup, if_neg hnex]; exact h2, h3⟩
    · subst hw
      refine ⟨(fl.fname, .dict DD) :: Drest, ?_, ?_, ?_⟩
      · simp only [tojsonFieldsLoop, hget, hb, isinstancePy, beq_self_eq_true, Bool.true_or,
          if_true, hrec, hloop, bind_ok_eq]
      · simp [hkeys]
      · intro hnd flx hflx
        obtain ⟨hne, hndrest⟩ := hnd_split hnd
        rcases List.mem_cons.mp hflx with rfl | hmem
        · constructor
          · intro ⟨fv, hbx⟩
            rw [hb] at hbx
            cases hbx
          · intro ssid' hbx
            rw [hb] at hbx
            cases hbx
            exact ⟨_, DD, hget, by simp [alookup], hrec⟩
        · have hnex : ¬(fl.fname = flx.fname) := by
            intro he
            exact hne (he ▸ List.mem_map_of_mem (fun x => x.fname) hmem)
          constructor
          · intro hlx
            simp only [alookup, if_neg hnex]
            exact ((hpt hndrest flx hmem).1 hlx)
          · intro ssid' hbx
            obtain ⟨wx, DDx, h1, h2, h3⟩ := (hpt hndrest flx hmem).2 ssid' hbx
            exact ⟨wx, DDx, h1, by simp only [alookup, if_neg hnex]; exact h2, h3⟩
/-- The fromjson field loop succeeds, collecting the attribute value of
every `init` field as `kwargs` and of every non-`init` field as
`no_init_data`, keyed by field name in order. -/
theorem fromjsonLoop_ok (recFrom : Nat → Py → Except PErr Py) (env : Env) (inst : Py)
    (j : List (String × Py)) :
    ∀ (flds : List FieldSpec), (∀ fl ∈ flds, FromFieldPkg recFrom env inst j fl) →
    fromjsonFieldsLoop recFrom j flds =
      .ok ((flds.filter (fun fl => fl.init)).map
             (fun fl => (fl.fname, (instGetattr env inst fl.fname).getD Py.none)),
           (flds.filter (fun fl => !fl.init)).map
             (fun fl => (fl.fname, (instGetattr env inst fl.fname).getD Py.none))) := by
  intro flds
  induction flds with
  | nil => exact fun _ => rfl
  | cons fl rest ih =>
    intro h
    have hrest := ih (fun y hy => h y (List.mem_cons_of_mem _ hy))
    obtain ⟨hleaf, hnested⟩ := h fl (List.mem_cons_self _ _)
    cases hb : fl.binding with
    | leaf fv =>
      have hlook := hleaf ⟨fv, hb⟩
      cases hg : instGetattr env inst fl.fname with
      | none =>
        rw [hg] at hlook
        cases hinit : fl.init <;>
          simp [fromjsonFieldsLoop, hb, hlook, hrest, bind_ok_eq, List.filter_cons,
            hinit, hg]
      | some w =>
        rw [hg] at hlook
        cases hinit : fl.init <;>
          simp [fromjsonFieldsLoop, hb, hlook, hrest, bind_ok_eq, List.filter_cons,
            hinit, hg]
    | nested ssid =>
      obtain ⟨raw, w, hlookraw, hg, hfrom⟩ := hnested ssid hb
      cases hinit : fl.init <;>
        simp [fromjsonFieldsLoop, hb, hlookraw, hfrom, hrest, bind_ok_eq, List.filter_cons,
          hinit, hg]
/-- Rebuilding an association list (distinct keys) by looking each of
its own keys up in itself is the identity. -/
theorem map_alookup_self (vals : List (String × Py)) :
    namesNodup (vals.map Prod.fst) = true →
    vals.map (fun kv => (kv.1, (alookup vals kv.1).getD Py.none)) = vals := by
  induction vals with
  | nil => intro _; rfl
  | cons kv rest ih =>
    intro hnd
    obtain ⟨k, v⟩ := kv
    rw [List.map_cons, namesNodup_iff, List.nodup_cons] at hnd
    simp only [List.map_cons]
    have hhead : (alookup ((k, v) :: rest) k).getD Py.none = v := by
      simp [alookup]
    have htail : rest.map (fun kv => (kv.1, (alookup ((k, v) :: rest) kv.1).getD Py.none)) =
        rest.map (fun kv => (kv.1, (alookup rest kv.1).getD Py.none)) := by
      apply List.map_congr_left
      intro kv' hkv'
      have hne : ¬(k = kv'.1) := by
        intro he
        apply hnd.1
        rw [he]
        exact List.mem_map.mpr ⟨kv', hkv', rfl⟩
      simp [alookup, hne]
    rw [hhead, htail, ih ((namesNodup_iff _).mpr hnd.2)]
/-- The JSON round trip for well-typed instances of non-union classes:
`tojson` yields a mapping with one entry per field (leaf entries holding
the attribute values), and `fromjson` of any lookup-equivalent mapping
rebuilds exactly the original instance. -/
theorem json_roundtrip_main (env : Env) (reg : Registry) :
    ∀ (fuel g c : Nat) (vals : List (String × Py)),
      fuel ≤ g → wellTyped env fuel (.inst c vals) = true →
      ∃ D, structTojson env reg g c (.inst c vals) = .ok (.dict D) ∧
        D.map Prod.fst = (classFields env c).map (fun fl => fl.fname) ∧
        (∀ fl ∈ classFields env c, (∃ fv, fl.binding = .leaf fv) →
          alookup D fl.fname = instGetattr env (.inst c vals) fl.fname) ∧
        (∀ j, (∀ q, alookup j q = alookup D q) →
          structFromjson env reg g c (.dict j) = .ok (.inst c vals)) := by
  intro fuel
  induction fuel with
  | zero =>
    intro g c vals hle hwt
    simp [wellTyped] at hwt
  | succ fuel ih =>
    intro g c vals hle hwt
    cases g with
    | zero => exact absurd hle (by omega)
    | succ g =>
      have hle' : fuel ≤ g := by omega
      rw [wellTyped_succ] at hwt
      simp only [wellTypedStep] at hwt
      cases hc : env[c]? with
      | none =>
        rw [hc] at hwt
        simp at hwt
      | some d =>
        rw [hc] at hwt
        simp only [Bool.and_eq_true] at hwt
        obtain ⟨⟨⟨hun, hnodup⟩, hkeys⟩, hall⟩ := hwt
        have hunone : d.unionTypeField = Option.none := Option.isNone_iff_eq_none.mp hun
        have hkeyseq : vals.map Prod.fst =
            (d.sfields.filter (fun fl => fl.init)).map (fun fl => fl.fname) := eq_of_beq hkeys
        have hallf := List.all_eq_true.mp hall
        have hfield : ∀ fl ∈ d.sfields,
            ∃ w, instGetattr env (.inst c vals) fl.fname = some w ∧
              (fl.init = true → alookup vals fl.fname = some w) ∧
              ((∃ fv, fl.binding = .leaf fv) ∨
               (∃ ssid vv Dv, fl.binding = .nested ssid ∧ w = .inst ssid vv ∧
                  structTojson env reg g ssid w = .ok (.dict Dv) ∧
                  (∀ p, (∀ q, alookup p q = alookup Dv q) →
                    structFromjson env reg g ssid (.dict p) = .ok w))) := by
          intro fl hfl
          have hok := hallf fl hfl
          simp only [wtFieldOk] at hok
          cases hinit : fl.init with
          | true =>
            rw [hinit] at hok
            simp only [reduceIte] at hok
            cases hb : fl.binding with
            | leaf fv =>
              rw [hb] at hok
              cases hv : alookup vals fl.fname with
              | none =>
                rw [hv] at hok
                simp at hok
              | some w =>
                refine ⟨w, ?_, fun _ => rfl, Or.inl ⟨fv, rfl⟩⟩
                simp [instGetattr, hv]
            | nested ssid =>
              rw [hb] at hok
              cases hv : alookup vals fl.fname with
              | none =>
                rw [hv] at hok
                simp at hok
              | some v =>
                rw [hv] at hok
                simp only [Bool.and_eq_true] at hok
                obtain ⟨hvinst, hwt'⟩ := hok
                cases v with
                | inst cv vv =>
                  have hcv : cv = ssid := by
                    simpa using hvinst
                  subst hcv
                  obtain ⟨Dv, htj, _, _, hfj⟩ := ih g cv vv hle' hwt'
                  exact ⟨.inst cv vv, by simp [instGetattr, hv], fun _ => rfl,
                    Or.inr ⟨cv, vv, Dv, rfl, rfl, htj, hfj⟩⟩
                | int n => simp at hvinst
                | bool b => simp at hvinst
                | str s => simp at hvinst
                | bytes bs => simp at hvinst
                | tuple xs => simp at hvinst
                | list xs => simp at hvinst
                | dict es => simp at hvinst
                | none => simp at hvinst
          | false =>
            rw [hinit] at hok
            rw [if_neg (by simp)] at hok
            rw [Bool.and_eq_true] at hok
            obtain ⟨hbleaf, hattr⟩ := hok
            cases hb : fl.binding with
            | nested ssid =>
              rw [hb] at hbleaf
              simp at hbleaf
            | leaf fv =>
              obtain ⟨w, hw⟩ := Option.isSome_iff_exists.mp hattr
              have hnotin : fl.fname ∉ vals.map Prod.fst := by
                rw [hkeyseq]
                intro hmem
                obtain ⟨fl', hfl', hfl'eq⟩ := List.mem_map.mp hmem
                have hfl'mem : fl' ∈ d.sfields := (List.mem_filter.mp hfl').1
                have hfl'init : fl'.init = true := by
                  simpa using (List.mem_filter.mp hfl').2
                have heq : fl' = fl :=
                  List.inj_on_of_nodup_map ((namesNodup_iff _).mp hnodup)
                    hfl'mem hfl hfl'eq
                rw [heq, hinit] at hfl'init
                cases hfl'init
              refine ⟨w, ?_, by intro hi; exact absurd hi (by simp), Or.inl ⟨fv, rfl⟩⟩
              simp [instGetattr, alookup_eq_none vals _ hnotin, hc, hw]
        have hToPkg : ∀ fl ∈ d.sfields,
            ToFieldPkg env (structTojson env reg g) (.inst c vals) fl := by
          intro fl hfl
          obtain ⟨w, hg2, _, hcase⟩ := hfield fl hfl
          rcases hcase with hl | ⟨ssid, vv, Dv, hb, hw, htj, _⟩
          · exact ⟨w, hg2, Or.inl hl⟩
          · exact ⟨w, hg2, Or.inr ⟨ssid, vv, Dv, hb, hw, htj⟩⟩
        obtain ⟨D, hloop, hDkeys, hDpt⟩ :=
          tojsonLoop_ok env (structTojson env reg g) (.inst c vals) d.sfields hToPkg
        have hDpt' := hDpt hnodup
        refine ⟨D, ?_, ?_, ?_, ?_⟩
        · rw [structTojson_succ]
          simp only [structTojsonStep, hc, hunone, hloop, bind_ok_eq]
        · simp [classFields, hc, hDkeys]
        · intro fl hfl hlf
          exact (hDpt' fl (by simpa [classFields, hc] using hfl)).1 hlf
        · intro j hj
          rw [structFromjson_succ]
          simp only [structFromjsonStep, hc]
          have hFromPkg : ∀ fl ∈ d.sfields,
              FromFieldPkg (structFromjson env reg g) env (.inst c vals) j fl := by
            intro fl hfl
            constructor
            · intro hlf
              rw [hj fl.fname]
              exact (hDpt' fl hfl).1 hlf
            · intro ssid hb
              obtain ⟨w, DD, h1, h2, h3⟩ := (hDpt' fl hfl).2 ssid hb
              obtain ⟨w', hg', _, hcase'⟩ := hfield fl hfl
              rw [hg'] at h1
              injection h1 with h1'
              subst h1'
              rcases hcase' with ⟨fv, hbf⟩ | ⟨ssid', vv, Dv, hbf, hwf, htjf, hfjf⟩
              · rw [hb] at hbf
                cases hbf
              · rw [hb] at hbf
                injection hbf with he
                subst he
                rw [htjf] at h3
                injection h3 with h3'
                injection h3' with h3''
                subst h3''
                exact ⟨.dict Dv, w', by rw [hj]; exact h2, hg', hfjf Dv (fun q => rfl)⟩
          have hfloop :=
            fromjsonLoop_ok (structFromjson env reg g) env (.inst c vals) j d.sfields hFromPkg
          rw [hfloop]
          simp only [bind_ok_eq, hunone]
          have hvalsnodup : namesNodup (vals.map Prod.fst) = true := by
            rw [hkeyseq, namesNodup_iff]
            exact List.Nodup.sublist
              (List.Sublist.map _ (List.filter_sublist _))
              ((namesNodup_iff _).mp hnodup)
          have hkw : (d.sfields.filter (fun fl => fl.init)).map
              (fun fl => (fl.fname, (instGetattr env (.inst c vals) fl.fname).getD Py.none)) =
              vals := by
            have hcongr : (d.sfields.filter (fun fl => fl.init)).map
                (fun fl => (fl.fname, (instGetattr env (.inst c vals) fl.fname).getD Py.none)) =
                (d.sfields.filter (fun fl => fl.init)).map
                (fun fl => (fl.fname, (alookup vals fl.fname).getD Py.none)) := by
              apply List.map_congr_left
              intro fl hfl
              obtain ⟨w, hg2, hival, _⟩ :=
                hfield fl (List.mem_filter.mp hfl).1
              have hinit : fl.init = true := by
                simpa using (List.mem_filter.mp hfl).2
              rw [hg2, hival hinit]
            rw [hcongr]
            have hmm : (d.sfields.filter (fun fl => fl.init)).map
                (fun fl => (fl.fname, (alookup vals fl.fname).getD Py.none)) =
                ((d.sfields.filter (fun fl => fl.init)).map (fun fl => fl.fname)).map
                (fun n => (n, (alookup vals n).getD Py.none)) := by
              rw [List.map_map]
              rfl
            rw [hmm, ← hkeyseq]
            have : (vals.map Prod.fst).map (fun n => (n, (alookup vals n).getD Py.none)) =
                vals.map (fun kv => (kv.1, (alookup vals kv.1).getD Py.none)) := by
              rw [List.map_map]
              rfl
            rw [this, map_alookup_self vals hvalsnodup]
          rw [hkw]
theorem wellTyped_nodup (env : Env) (fuel c : Nat) (vals : List (String × Py))
    (d : StructDef) (hd : env[c]? = some d)
    (hwt : wellTyped env fuel (.inst c vals) = true) :
    namesNodup (d.sfields.map (fun fl => fl.fname)) = true := by
  cases fuel with
  | zero => simp [wellTyped] at hwt
  | succ fuel =>
    rw [wellTyped_succ] at hwt
    simp only [wellTypedStep] at hwt
    rw [hd] at hwt
    simp only [Bool.and_eq_true] at hwt
    exact hwt.1.1.2
theorem alookup_getattr_map (env : Env) (inst0 : Py) (l : List FieldSpec) (f : String)
    (h : ∃ fl ∈ l, fl.fname = f) :
    alookup (l.map (fun fl => (fl.fname, (instGetattr env inst0 fl.fname).getD Py.none))) f =
      some ((instGetattr env inst0 f).getD Py.none) := by
  induction l with
  | nil => simp at h
  | cons fl rest ih =>
    by_cases hf : fl.fname = f
    · simp only [List.map_cons, alookup, if_pos hf]
      rw [hf]
    · simp only [List.map_cons, alookup, if_neg hf]
      apply ih
      obtain ⟨fl', hfl', he⟩ := h
      rcases List.mem_cons.mp hfl' with rfl | hmem
      · exact absurd he hf
      · exact ⟨fl', hmem, he⟩
/-- C4: for every well-typed struct instance, `fromjson (tojson i) = i`
— both when tojson/fromjson are invoked on the instance's own class and
when they are invoked on a union base class that dispatches to the
instance's variant class through the discriminator. -/
theorem C4_json_roundtrip (env : Env) (reg : Registry) (fuel g S c : Nat)
    (vals : List (String × Py))
    (hle : fuel ≤ g)
    (hwt : wellTyped env fuel (.inst c vals) = true)
    (hcase : S = c ∨ UnionDispatchHyps env reg S c vals) :
    ∃ J, structTojson env reg (g + 1) S (.inst c vals) = .ok (.dict J) ∧
      structFromjson env reg (g + 1) S (.dict J) = .ok (.inst c vals) := by
  rcases hcase with rfl | hu
  · obtain ⟨D, htj, _, _, hfj⟩ :=
      json_roundtrip_main env reg fuel (g + 1) S vals (by omega) hwt
    exact ⟨D, htj, hfj D (fun q => rfl)⟩
  · obtain ⟨dS, dc, f, flD, fv, v, ext, hdS, hfS, hdc, hne, hanc, hpre, hleafS,
      hfind, hflD, hgetf, hureg, flS, hflSmem, hflSname, hflSinit⟩ := hu
    obtain ⟨D, htj, hDkeys, hDleaf, hfj⟩ :=
      json_roundtrip_main env reg fuel g c vals hle hwt
    have hndD : namesNodup (D.map Prod.fst) = true := by
      rw [hDkeys]
      simp only [classFields, hdc]
      exact wellTyped_nodup env fuel c vals dc hdc hwt
    have hflDmem : flD ∈ dc.sfields := List.mem_of_find?_eq_some hfind
    have hflDname : flD.fname = f := by
      have := List.find?_some hfind
      simpa using this
    have hDf : alookup D f = some v := by
      have h1 := hDleaf flD (by simpa [classFields, hdc] using hflDmem) ⟨fv, hflD⟩
      rw [hflDname] at h1
      rw [h1, hgetf]
    have hequiv : ∀ q, alookup (dictUpdate [(f, v)] D) q = alookup D q :=
      alookup_dictUpdate_eq D f v hndD hDf
    have hisin : isinstancePy env (.inst c vals) S = true := by
      have hmem : S ∈ dc.ancestors := by simpa using hanc
      simp [isinstancePy, hdc, hmem]
    refine ⟨dictUpdate [(f, v)] D, ?_, ?_⟩
    · rw [structTojson_succ]
      simp only [structTojsonStep, hdS, hfS, if_neg hne, hisin, if_true, hdc,
        hfind, hflD, hgetf, htj, bind_ok_eq]
    · rw [structFromjson_succ]
      simp only [structFromjsonStep, hdS]
      have hFromPkg : ∀ fl ∈ dS.sfields,
          FromFieldPkg (structFromjson env reg g) env (.inst c vals)
            (dictUpdate [(f, v)] D) fl := by
        intro fl hfl
        constructor
        · intro hlf
          rw [hequiv fl.fname]
          have hmemc : fl ∈ classFields env c := by
            simp only [classFields, hdc, hpre]
            exact List.mem_append_left _ hfl
          exact hDleaf fl hmemc hlf
        · intro ssid hb
          obtain ⟨fw, hfw⟩ := hleafS fl hfl
          rw [hb] at hfw
          cases hfw
      have hfloop :=
        fromjsonLoop_ok (structFromjson env reg g) env (.inst c vals)
          (dictUpdate [(f, v)] D) dS.sfields hFromPkg
      rw [hfloop]
      simp only [bind_ok_eq, hfS]
      have hni : alookup ((dS.sfields.filter (fun fl => !fl.init)).map
          (fun fl => (fl.fname, (instGetattr env (.inst c vals) fl.fname).getD Py.none))) f =
          some ((instGetattr env (.inst c vals) f).getD Py.none) := by
        apply alookup_getattr_map
        refine ⟨flS, List.mem_filter.mpr ⟨hflSmem, ?_⟩, hflSname⟩
        simp [hflSinit]
      rw [hni, hgetf]
      simp only [Option.getD_some, hureg]
      exact hfj (dictUpdate [(f, v)] D) hequiv
/-- Witness for C4 at the Ping scenario: tojson of the Ping instance on
the union base followed by fromjson on the union base returns the very
instance. -/
theorem C4_json_roundtrip_witness :
    ∃ J, structTojson demoEnv demoReg 2 0 (.inst 1 [("payload", .int 7)]) = .ok (.dict J) ∧
      structFromjson demoEnv demoReg 2 0 (.dict J) = .ok (.inst 1 [("payload", .int 7)]) :=
  C4_json_roundtrip demoEnv demoReg 1 1 0 1 [("payload", .int 7)] (by omega) rfl
    (Or.inr ⟨pingBase, pingVariant, "msg_type",
      ⟨"msg_type", .leaf (.simple .u8 1), false, true, 0⟩, .simple .u8 1, .int 2,
      [⟨"payload", .leaf (.simple .u8 1), true, false, 1⟩],
      rfl, rfl, rfl, by decide, rfl, rfl,
      (by
        intro fl hfl
        obtain rfl := List.mem_singleton.mp hfl
        exact ⟨.simple .u8 1, rfl⟩),
      rfl, rfl, rfl, rfl,
      ⟨⟨"msg_type", .leaf (.simple .u8 1), false, true, 0⟩,
        List.mem_singleton.mpr rfl, rfl, rfl⟩⟩)
